import Mathlib

/-!
Verification of the KSE-100 investment calculator and SIP simulator.

This file gives a shallow embedding, over exact rational arithmetic, of the
two numeric cores of the repository:

* the coverage-based allocation of `kse1.py` (`invest_in_kse100`) and
  `main.py` (`calculate_investment_api`): cumulative-weight prefix selection,
  weight renormalization, and whole-share rounding;
* the SIP compounding simulation of `sip.py` (`sip_calculator`) and
  `main.py` (`compute_sip_api`): monthly interest-before-deposit compounding
  with yearly contribution escalation.

Python floats are modelled as `ℚ`; a missing (NaN) price is `Option.none`;
Python exceptions (`ValueError` from `math.floor` on NaN, `ZeroDivisionError`)
are modelled with `Except String`.  Python's `round(x, 2)` is modelled as
exact round-half-to-even at two decimals (`round2`).
-/

/-- Round a rational to the nearest integer, ties to even, following the
behaviour of Python's builtin `round`. -/
def rhe (x : ℚ) : ℤ :=
  if x - ⌊x⌋ < 1/2 then ⌊x⌋
  else if 1/2 < x - ⌊x⌋ then ⌊x⌋ + 1
  else if ⌊x⌋ % 2 = 0 then ⌊x⌋ else ⌊x⌋ + 1

/-- Python's `round(x, 2)`: round to two decimal places, ties to even. -/
def round2 (x : ℚ) : ℚ :=
  (rhe (x * 100) : ℚ) / 100

/-- One row of the security universe (one row of `kse100.xlsx`): a symbol, a
fractional index weight, and an optional quoted price (`none` models a
missing/NaN price cell). -/
structure Security where
  symbol : String
  weight : ℚ
  price : Option ℚ

/-- One line of the computed investment plan, as built by
`main.py:139-146` (`StockAllocation`) and `kse1.py:130-137`. -/
structure StockAllocation where
  symbol : String
  weight_percent : ℚ
  adjusted_weight_percent : ℚ
  price : ℚ
  shares : ℤ
  invested_amount : ℚ

/-- The aggregate outcome of one allocation run: the plan plus the summary
quantities of `main.py:150-161`.  `total_invested`, `remaining_cash`,
`investment_efficiency` and `actual_coverage` hold the exact values of the
corresponding Python locals; the API summary dict additionally rounds them to
two decimals for display. -/
structure AllocationResult where
  investment_plan : List StockAllocation
  total_invested : ℚ
  remaining_cash : ℚ
  companies_selected : ℕ
  companies_invested : ℕ
  selected_companies : List String
  actual_coverage : ℚ
  investment_efficiency : ℚ

/-- Running cumulative sums with accumulator `a`, modelling
`df['weight'].cumsum()` (`kse1.py:80`, `main.py:103`). -/
def cumsumAux (a : ℚ) : List ℚ → List ℚ
  | [] => []
  | x :: xs => (a + x) :: cumsumAux (a + x) xs

/-- Cumulative sums of a list, the pandas `cumsum` of the weight column. -/
def cumsum (l : List ℚ) : List ℚ :=
  cumsumAux 0 l

/-- Position of the first entry that is `≥ target`, modelling
`df[df['cum_weight'] >= target_coverage_decimal].index` followed by taking
the first label (`kse1.py:84-88`, `main.py:106-109`). -/
def findCrossIdx (target : ℚ) : List ℚ → Option ℕ
  | [] => none
  | c :: cs => if target ≤ c then some 0 else (findCrossIdx target cs).map (· + 1)

/-- Companies selected for a coverage target: the prefix of the input up to
and including the first row whose cumulative weight reaches
`coverage_percent / 100`, or the whole input when no row reaches it
(`kse1.py:80-92`, `main.py:103-112`; `df.loc[:i]` is inclusive of row `i`). -/
def selectedCompanies (secs : List Security) (coverage_percent : ℚ) : List Security :=
  match findCrossIdx (coverage_percent / 100) (cumsum (secs.map Security.weight)) with
  | some i => secs.take (i + 1)
  | none => secs

/-- Cumulative weight of the prefix ending at index `i` (inclusive), the
specification-side reading of `cum_weight[i]`. -/
def cumWeight (secs : List Security) (i : ℕ) : ℚ :=
  ((secs.map Security.weight).take (i + 1)).sum

/-- Whether a security survives the price filter
`if pd.isna(price) or price <= 0: continue` (`kse1.py:112`, `main.py:128`). -/
def validPrice (s : Security) : Bool :=
  match s.price with
  | none => false
  | some p => !(p ≤ 0)

/-- The plan line built for one selected security with valid price `p`, given
the selection's total weight `w` and the `investment_amount`
(`kse1.py:116-137`, `main.py:131-146`): `adjusted_weight = weight / w`,
`allocation_amount = adjusted_weight * investment_amount`,
`shares = floor(allocation_amount / price)`,
`invested_amount = shares * price` rounded to two decimals in the output. -/
def mkLine (w inv : ℚ) (s : Security) (p : ℚ) : StockAllocation :=
  { symbol := s.symbol
    weight_percent := round2 (s.weight * 100)
    adjusted_weight_percent := round2 (s.weight / w * 100)
    price := p
    shares := ⌊s.weight / w * inv / p⌋
    invested_amount := round2 ((⌊s.weight / w * inv / p⌋ : ℚ) * p) }

/-- The per-security allocation loop (`kse1.py:106-137`, `main.py:123-146`)
over the selected rows, with `w` the selection's total weight.  It returns
the plan lines, the exact `total_invested`, and `successful_investments`
(the count of lines with `shares > 0`).  When `w = 0` the adjusted weights
are NaN (0/0 in pandas), and the first `math.floor` on a NaN allocation
raises `ValueError`, modelled as `Except.error`; rows failing the price
filter are skipped before that point. -/
def allocLoop (w inv : ℚ) : List Security → Except String (List StockAllocation × ℚ × ℕ)
  | [] => Except.ok ([], 0, 0)
  | s :: rest =>
    match s.price with
    | none => allocLoop w inv rest
    | some p =>
      if p ≤ 0 then allocLoop w inv rest
      else if w = 0 then Except.error "cannot convert float NaN to integer"
      else
        match allocLoop w inv rest with
        | Except.error e => Except.error e
        | Except.ok (lines, ti, cnt) =>
          Except.ok (mkLine w inv s p :: lines,
            (⌊s.weight / w * inv / p⌋ : ℚ) * p + ti,
            (if 0 < ⌊s.weight / w * inv / p⌋ then 1 else 0) + cnt)

/-- One allocation run: selection, renormalization, share rounding and
summary assembly, embedding `main.py:94-165` (`calculate_investment_api`)
and the identical algorithm of `kse1.py:65-164` (`invest_in_kse100`).
A Python exception anywhere in the run (NaN adjusted weights when the
selected weight sum is 0, or `ZeroDivisionError` in the efficiency summary
when `investment_amount = 0`) aborts it with `Except.error`; `main.py`
catches the exception and reports failure with no result. -/
def calculate_investment_api (secs : List Security) (coverage_percent investment_amount : ℚ) :
    Except String AllocationResult :=
  match allocLoop ((selectedCompanies secs coverage_percent).map Security.weight).sum
      investment_amount (selectedCompanies secs coverage_percent) with
  | Except.error e => Except.error e
  | Except.ok (lines, ti, cnt) =>
    if investment_amount = 0 then Except.error "float division by zero"
    else
      Except.ok
        { investment_plan := lines
          total_invested := ti
          remaining_cash := investment_amount - ti
          companies_selected := (selectedCompanies secs coverage_percent).length
          companies_invested := cnt
          selected_companies := (selectedCompanies secs coverage_percent).map Security.symbol
          actual_coverage := ((selectedCompanies secs coverage_percent).map Security.weight).sum
          investment_efficiency := ti / investment_amount * 100 }

/-- One emitted SIP table row (`SIPRow` of `main.py:37-43`; the same six
columns as the `sip.py` table). -/
structure SIPRow where
  year : ℕ
  year_deposits : ℚ
  earnings_this_year : ℚ
  total_deposits : ℚ
  accrued_earnings : ℚ
  net_balance : ℚ

/-- The exact simulation state carried across years of the SIP loop: the
Python locals `balance`, `total_deposits`, `total_earnings`,
`monthly_investment` of `compute_sip_api` (`sip.py` names them
`opening_balance`, `total_invested`, `total_earnings`,
`monthly_investment`). -/
structure SipState where
  balance : ℚ
  total_deposits : ℚ
  total_earnings : ℚ
  monthly : ℚ

/-- The SIP summary quantities computed after the loop
(`main.py:222-224`, `sip.py:64-66`), held exactly; the API dict rounds each
to two decimals for display. -/
structure SipSummary where
  final_corpus : ℚ
  total_deposits : ℚ
  total_earnings : ℚ
  profit : ℚ
  growth_percent : ℚ

/-- One month of the inner SIP loop (`main.py:197-205`, `sip.py:36-44`) on
the triple (balance, year_deposits, year_earnings): interest accrues on the
starting balance, then the monthly deposit is added at end of month. -/
def sipMonth (r m : ℚ) (s : ℚ × ℚ × ℚ) : ℚ × ℚ × ℚ :=
  (s.1 + s.1 * r + m, s.2.1 + m, s.2.2 + s.1 * r)

/-- The twelve months of one simulated year (`for _ in range(12)`),
starting from balance `b` with zeroed yearly accumulators. -/
def sipYear (r m b : ℚ) : ℚ × ℚ × ℚ :=
  sipMonth r m (sipMonth r m (sipMonth r m (sipMonth r m (sipMonth r m
    (sipMonth r m (sipMonth r m (sipMonth r m (sipMonth r m (sipMonth r m
      (sipMonth r m (sipMonth r m (b, 0, 0))))))))))))

/-- The state update of one year of the outer SIP loop
(`main.py:193-220`): run twelve months, fold the yearly sums into the
cumulative totals, then escalate the monthly contribution by
`yearly_increment_percent` for the next year. -/
def yearStep (r incr : ℚ) (s : SipState) : SipState :=
  { balance := (sipYear r s.monthly s.balance).1
    total_deposits := s.total_deposits + (sipYear r s.monthly s.balance).2.1
    total_earnings := s.total_earnings + (sipYear r s.monthly s.balance).2.2
    monthly := s.monthly + s.monthly * (incr / 100) }

/-- The row emitted for the year numbered `year` entered in state `s`
(`main.py:210-217`, `sip.py:49-56`): every field is rounded to two decimals
on emission. -/
def rowFor (r : ℚ) (year : ℕ) (s : SipState) : SIPRow :=
  { year := year
    year_deposits := round2 (sipYear r s.monthly s.balance).2.1
    earnings_this_year := round2 (sipYear r s.monthly s.balance).2.2
    total_deposits := round2 (s.total_deposits + (sipYear r s.monthly s.balance).2.1)
    accrued_earnings := round2 (s.total_earnings + (sipYear r s.monthly s.balance).2.2)
    net_balance := round2 (sipYear r s.monthly s.balance).1 }

/-- The outer SIP loop `for year in range(1, years + 1)` with `idx` the
number of the next year to simulate: emits one row per year and returns the
final exact state. -/
def sipLoop (r incr : ℚ) : ℕ → ℕ → SipState → List SIPRow × SipState
  | 0, _, s => ([], s)
  | n + 1, idx, s =>
    (rowFor r idx s :: (sipLoop r incr n (idx + 1) (yearStep r incr s)).1,
      (sipLoop r incr n (idx + 1) (yearStep r incr s)).2)

/-- The optional Year 0 row (`main.py:183-191`, `sip.py:21-29`), emitted
only when there is an initial lump-sum investment. -/
def year0Row (initial_balance : ℚ) : SIPRow :=
  { year := 0
    year_deposits := round2 initial_balance
    earnings_this_year := 0
    total_deposits := round2 initial_balance
    accrued_earnings := round2 0
    net_balance := round2 initial_balance }

/-- The summary assembled from the final simulation state with the
zero-deposit guard of `main.py:222-224`:
`growth_percent = (profit / total_deposits * 100.0) if total_deposits > 0
else 0.0`. -/
def sipSummaryGuarded (st : SipState) : SipSummary :=
  { final_corpus := st.balance
    total_deposits := st.total_deposits
    total_earnings := st.total_earnings
    profit := st.balance - st.total_deposits
    growth_percent :=
      if 0 < st.total_deposits then
        (st.balance - st.total_deposits) / st.total_deposits * 100
      else 0 }

/-- The summary assembled from the final simulation state with the
unguarded division of `sip.py:64-66`:
`growth_percent = (profit / total_invested) * 100`. -/
def sipSummaryBare (st : SipState) : SipSummary :=
  { final_corpus := st.balance
    total_deposits := st.total_deposits
    total_earnings := st.total_earnings
    profit := st.balance - st.total_deposits
    growth_percent := (st.balance - st.total_deposits) / st.total_deposits * 100 }

/-- The SIP computation of `main.py:169-239` (`compute_sip_api`): monthly
rate `annual_interest_rate / 100 / 12`, optional Year 0 row, `years`
simulated years, and the summary with the zero-deposit guard
`growth_percent = ... if total_deposits > 0 else 0.0`. -/
def compute_sip_api (initial_balance : ℚ) (years : ℕ)
    (annual_interest_rate monthly_investment yearly_increment_percent : ℚ) :
    List SIPRow × SipSummary :=
  ((if 0 < initial_balance then [year0Row initial_balance] else []) ++
      (sipLoop (annual_interest_rate / 100 / 12) yearly_increment_percent years 1
        ⟨initial_balance, initial_balance, 0, monthly_investment⟩).1,
    sipSummaryGuarded
      ((sipLoop (annual_interest_rate / 100 / 12) yearly_increment_percent years 1
        ⟨initial_balance, initial_balance, 0, monthly_investment⟩).2))

/-- The standalone SIP calculator of `sip.py:13-74` (`sip_calculator`): the
same loop (monthly rate `annual_interest_rate / 12 / 100`), but the summary
computes `growth_percent = (profit / total_invested) * 100` with no guard
(`sip.py:66`), so Python raises `ZeroDivisionError` when the total deposits
are zero. -/
def sip_calculator (initial_balance : ℚ) (years : ℕ)
    (annual_interest_rate monthly_investment yearly_increment_percent : ℚ) :
    Except String (List SIPRow × SipSummary) :=
  if ((sipLoop (annual_interest_rate / 12 / 100) yearly_increment_percent years 1
        ⟨initial_balance, initial_balance, 0, monthly_investment⟩).2).total_deposits = 0 then
    Except.error "float division by zero"
  else
    Except.ok
      ((if 0 < initial_balance then [year0Row initial_balance] else []) ++
          (sipLoop (annual_interest_rate / 12 / 100) yearly_increment_percent years 1
            ⟨initial_balance, initial_balance, 0, monthly_investment⟩).1,
        sipSummaryBare
          ((sipLoop (annual_interest_rate / 12 / 100) yearly_increment_percent years 1
            ⟨initial_balance, initial_balance, 0, monthly_investment⟩).2))

/-- The exact simulation state reached after `y` completed years of a run
with the `compute_sip_api` monthly rate. -/
def sipStateAfter (initial_balance annual_interest_rate monthly_investment
    yearly_increment_percent : ℚ) (y : ℕ) : SipState :=
  (sipLoop (annual_interest_rate / 100 / 12) yearly_increment_percent y 1
    ⟨initial_balance, initial_balance, 0, monthly_investment⟩).2

/-- Round-half-to-even moves a value by at most one half. -/
lemma rhe_bounds (x : ℚ) : x - 1/2 ≤ (rhe x : ℚ) ∧ (rhe x : ℚ) ≤ x + 1/2 := by
  have h1 : (⌊x⌋ : ℚ) ≤ x := Int.floor_le x
  have h2 : x < ⌊x⌋ + 1 := Int.lt_floor_add_one x
  unfold rhe
  split_ifs with ha hb hc
  · constructor <;> linarith
  · constructor <;> push_cast <;> linarith
  · constructor <;> linarith
  · constructor <;> push_cast <;> linarith

/-- Two-decimal rounding moves a value by at most `1/200`. -/
lemma round2_bounds (x : ℚ) : x - 1/200 ≤ round2 x ∧ round2 x ≤ x + 1/200 := by
  obtain ⟨hl, hr⟩ := rhe_bounds (x * 100)
  unfold round2
  constructor
  · have h : (x * 100 - 1/2) / 100 ≤ (rhe (x * 100) : ℚ) / 100 := by gcongr
    calc x - 1/200 = (x * 100 - 1/2) / 100 := by ring
    _ ≤ (rhe (x * 100) : ℚ) / 100 := h
  · have h : (rhe (x * 100) : ℚ) / 100 ≤ (x * 100 + 1/2) / 100 := by gcongr
    calc (rhe (x * 100) : ℚ) / 100 ≤ (x * 100 + 1/2) / 100 := h
    _ = x + 1/200 := by ring

/-- Round-half-to-even fixes integers. -/
lemma rhe_intCast (k : ℤ) : rhe (k : ℚ) = k := by
  unfold rhe
  rw [Int.floor_intCast]
  norm_num

/-- A value with at most two decimal places is fixed by `round2`. -/
lemma round2_cent (k : ℤ) : round2 ((k : ℚ) / 100) = (k : ℚ) / 100 := by
  unfold round2
  rw [div_mul_cancel₀ _ (by norm_num : (100:ℚ) ≠ 0), rhe_intCast]

/-- Rounding fixes zero. -/
lemma round2_zero : round2 0 = 0 := by
  have h := round2_cent 0
  simpa using h

/-- Characterization of a successful first-crossing search over cumulative
sums started at accumulator `a`. -/
lemma findCrossIdx_cumsumAux_some (t : ℚ) :
    ∀ (l : List ℚ) (a : ℚ) (i : ℕ), findCrossIdx t (cumsumAux a l) = some i →
      i < l.length ∧ t ≤ a + (l.take (i + 1)).sum ∧
        ∀ j < i, a + (l.take (j + 1)).sum < t := by
  intro l
  induction l with
  | nil => intro a i h; simp [cumsumAux, findCrossIdx] at h
  | cons x xs ih =>
    intro a i h
    simp only [cumsumAux, findCrossIdx] at h
    by_cases hc : t ≤ a + x
    · rw [if_pos hc] at h
      cases h
      refine ⟨by simp, by simpa using hc, ?_⟩
      intro j hj
      omega
    · rw [if_neg hc] at h
      cases hi : findCrossIdx t (cumsumAux (a + x) xs) with
      | none => simp [hi] at h
      | some i0 =>
        simp only [hi, Option.map_some'] at h
        obtain ⟨h1, h2, h3⟩ := ih (a + x) i0 hi
        cases h
        refine ⟨by simpa using Nat.succ_lt_succ h1, ?_, ?_⟩
        · simpa [add_assoc] using h2
        · intro j hj
          cases j with
          | zero => simpa using lt_of_not_ge hc
          | succ j0 =>
            have hj0 := h3 j0 (by omega)
            simpa [add_assoc] using hj0

/-- Characterization of a failed first-crossing search over cumulative sums
started at accumulator `a`. -/
lemma findCrossIdx_cumsumAux_none (t : ℚ) :
    ∀ (l : List ℚ) (a : ℚ), findCrossIdx t (cumsumAux a l) = none →
      ∀ j < l.length, a + (l.take (j + 1)).sum < t := by
  intro l
  induction l with
  | nil => intro a _ j hj; simp at hj
  | cons x xs ih =>
    intro a h j hj
    simp only [cumsumAux, findCrossIdx] at h
    by_cases hc : t ≤ a + x
    · rw [if_pos hc] at h; simp at h
    · rw [if_neg hc] at h
      cases j with
      | zero => simpa using lt_of_not_ge hc
      | succ j0 =>
        cases hi : findCrossIdx t (cumsumAux (a + x) xs) with
        | some i0 => rw [hi] at h; simp at h
        | none =>
          have := ih (a + x) hi j0 (by simpa using Nat.lt_of_succ_lt_succ hj)
          simpa [add_assoc] using this

/-- Lowering the target can only move the first crossing earlier. -/
lemma findCrossIdx_mono_some (t1 t2 : ℚ) (ht : t1 ≤ t2) :
    ∀ (l : List ℚ) (i2 : ℕ), findCrossIdx t2 l = some i2 →
      ∃ i1, findCrossIdx t1 l = some i1 ∧ i1 ≤ i2 := by
  intro l
  induction l with
  | nil => intro i2 h; simp [findCrossIdx] at h
  | cons x xs ih =>
    intro i2 h
    simp only [findCrossIdx] at h ⊢
    by_cases h2 : t2 ≤ x
    · rw [if_pos h2] at h
      rw [if_pos (le_trans ht h2)]
      exact ⟨0, rfl, by omega⟩
    · rw [if_neg h2] at h
      cases hi : findCrossIdx t2 xs with
      | none => simp [hi] at h
      | some j2 =>
        simp only [hi, Option.map_some'] at h
        cases h
        by_cases h1 : t1 ≤ x
        · rw [if_pos h1]
          exact ⟨0, rfl, by omega⟩
        · rw [if_neg h1]
          obtain ⟨j1, hj1, hle⟩ := ih j2 hi
          exact ⟨j1 + 1, by simp [hj1], by omega⟩

/-- If even the lower target is never reached, neither is the higher one. -/
lemma findCrossIdx_mono_none (t1 t2 : ℚ) (ht : t1 ≤ t2) :
    ∀ l : List ℚ, findCrossIdx t1 l = none → findCrossIdx t2 l = none := by
  intro l
  induction l with
  | nil => intro _; rfl
  | cons x xs ih =>
    intro h
    simp only [findCrossIdx] at h ⊢
    by_cases h1 : t1 ≤ x
    · rw [if_pos h1] at h; simp at h
    · rw [if_neg h1] at h
      rw [if_neg (fun h2 => h1 (le_trans ht h2))]
      cases hi : findCrossIdx t1 xs with
      | some j1 => simp [hi] at h
      | none => simp [ih hi]

/-- C2.  For every ordered security list and `coverage_percent` in
`(0, 100]`, the selection is the inclusive prefix `[0, i]` where `i` is the
first index whose cumulative weight reaches `coverage_percent / 100` (the
crossing security is included in full); when no index reaches the target,
the whole sequence is selected. -/
theorem selection_is_first_crossing_prefix (secs : List Security) (c : ℚ)
    (h0 : 0 < c) (h100 : c ≤ 100) :
    (∃ i, i < secs.length ∧ c / 100 ≤ cumWeight secs i ∧
      (∀ j < i, cumWeight secs j < c / 100) ∧
      selectedCompanies secs c = secs.take (i + 1)) ∨
    ((∀ i < secs.length, cumWeight secs i < c / 100) ∧
      selectedCompanies secs c = secs) := by
  unfold selectedCompanies cumsum
  cases hfi : findCrossIdx (c / 100) (cumsumAux 0 (secs.map Security.weight)) with
  | some i =>
    left
    obtain ⟨h1, h2, h3⟩ := findCrossIdx_cumsumAux_some (c / 100) (secs.map Security.weight) 0 i hfi
    refine ⟨i, by simpa using h1, ?_, ?_, rfl⟩
    · unfold cumWeight
      simpa using h2
    · intro j hj
      unfold cumWeight
      simpa using h3 j hj
  | none =>
    right
    refine ⟨?_, rfl⟩
    intro i hi
    unfold cumWeight
    simpa using findCrossIdx_cumsumAux_none (c / 100) (secs.map Security.weight) 0 hfi i
      (by simpa using hi)

/-- C8.  For a fixed security list, raising the coverage percentage never
shrinks the selection. -/
theorem coverage_selection_monotonic (secs : List Security) (c1 c2 : ℚ)
    (h0 : 0 < c1) (h12 : c1 ≤ c2) (h100 : c2 ≤ 100) :
    (selectedCompanies secs c1).length ≤ (selectedCompanies secs c2).length := by
  have ht : c1 / 100 ≤ c2 / 100 := by gcongr
  cases hf2 : findCrossIdx (c2 / 100) (cumsum (secs.map Security.weight)) with
  | some i2 =>
    obtain ⟨i1, hf1, hle⟩ := findCrossIdx_mono_some _ _ ht _ i2 hf2
    simp only [selectedCompanies, hf1, hf2, List.length_take]
    omega
  | none =>
    have h1 : (selectedCompanies secs c1).length ≤ secs.length := by
      unfold selectedCompanies
      cases hf1 : findCrossIdx (c1 / 100) (cumsum (secs.map Security.weight)) with
      | some i1 => simpa using List.length_take_le (i1 + 1) secs
      | none => exact le_refl _
    have h2 : selectedCompanies secs c2 = secs := by
      simp only [selectedCompanies, hf2]
    rw [h2]
    exact h1

/-- The two-security universe of the specification's example scenarios. -/
def twoSecs : List Security :=
  [⟨"A", 3/5, some 10⟩, ⟨"B", 2/5, some 20⟩]

/-- Witness for C2 at the specification's first example scenario. -/
theorem selection_prefix_witness :
    (0:ℚ) < 50 ∧ (50:ℚ) ≤ 100 ∧
    ((∃ i, i < twoSecs.length ∧ (50:ℚ) / 100 ≤ cumWeight twoSecs i ∧
      (∀ j < i, cumWeight twoSecs j < (50:ℚ) / 100) ∧
      selectedCompanies twoSecs 50 = twoSecs.take (i + 1)) ∨
    ((∀ i < twoSecs.length, cumWeight twoSecs i < (50:ℚ) / 100) ∧
      selectedCompanies twoSecs 50 = twoSecs)) :=
  ⟨by norm_num, by norm_num,
    selection_is_first_crossing_prefix twoSecs 50 (by norm_num) (by norm_num)⟩

/-- Witness for C8: moving from 50% to 100% coverage on the example list. -/
theorem coverage_monotonic_witness :
    (0:ℚ) < 50 ∧ (50:ℚ) ≤ 100 ∧ (100:ℚ) ≤ 100 ∧
    (selectedCompanies twoSecs 50).length ≤ (selectedCompanies twoSecs 100).length :=
  ⟨by norm_num, by norm_num, by norm_num,
    coverage_selection_monotonic twoSecs 50 100 (by norm_num) (by norm_num) (by norm_num)⟩

/-- The exact invested total of a list of plan lines, accumulated the way
the loop accumulates `total_invested`. -/
def planTotal : List StockAllocation → ℚ
  | [] => 0
  | x :: xs => (x.shares : ℚ) * x.price + planTotal xs

/-- The count of plan lines bought with at least one share, accumulated the
way the loop accumulates `successful_investments`. -/
def planCount : List StockAllocation → ℕ
  | [] => 0
  | x :: xs => (if 0 < x.shares then 1 else 0) + planCount xs

/-- The plan lines the loop emits: one per selected security that passes
the price filter, in selection order. -/
def linesFor (w inv : ℚ) (l : List Security) : List StockAllocation :=
  l.filterMap fun s =>
    match s.price with
    | none => none
    | some p => if p ≤ 0 then none else some (mkLine w inv s p)

/-- The successful-investment count is the number of plan lines with
positive shares. -/
lemma planCount_eq_filter_length :
    ∀ lines : List StockAllocation,
      planCount lines = (lines.filter fun x => 0 < x.shares).length := by
  intro lines
  induction lines with
  | nil => rfl
  | cons x xs ih =>
    by_cases h : 0 < x.shares
    · simp [planCount, List.filter_cons, h, ih] <;> omega
    · simp [planCount, List.filter_cons, h, ih] <;> omega

/-- With a nonzero selection weight the loop never raises: it returns the
filtered plan lines together with their exact totals. -/
lemma allocLoop_eq_ok (w inv : ℚ) (hw : w ≠ 0) :
    ∀ l : List Security,
      allocLoop w inv l =
        Except.ok (linesFor w inv l, planTotal (linesFor w inv l),
          planCount (linesFor w inv l)) := by
  intro l
  induction l with
  | nil => simp [allocLoop, linesFor, planTotal, planCount]
  | cons s rest ih =>
    cases hp : s.price with
    | none => simp [allocLoop, hp, linesFor, List.filterMap_cons, ih]
    | some p =>
      by_cases hple : p ≤ 0
      · simp [allocLoop, hp, hple, linesFor, List.filterMap_cons, ih]
      · simp only [allocLoop, hp, hple, if_false, hw, ih, linesFor,
          List.filterMap_cons, if_neg hple]
        simp [planTotal, planCount, mkLine, linesFor]

/-- Securities failing the price filter are invisible to the loop: running
it on the filtered selection gives the identical outcome. -/
lemma allocLoop_filter_valid (w inv : ℚ) :
    ∀ l : List Security, allocLoop w inv l = allocLoop w inv (l.filter validPrice) := by
  intro l
  induction l with
  | nil => rfl
  | cons s rest ih =>
    cases hp : s.price with
    | none =>
      have hv : validPrice s = false := by simp [validPrice, hp]
      simp [allocLoop, hp, List.filter_cons, hv, ih]
    | some p =>
      by_cases hple : p ≤ 0
      · have hv : validPrice s = false := by simp [validPrice, hp, hple]
        simp [allocLoop, hp, hple, List.filter_cons, hv, ih]
      · have hv : validPrice s = true := by simp [validPrice, hp, hple]
        by_cases hw : w = 0
        · simp [allocLoop, hp, hple, hw, List.filter_cons, hv]
        · simp [allocLoop, hp, hple, hw, List.filter_cons, hv, ih]

/-- A loop over securities with no valid price emits nothing; with a zero
selection weight it raises exactly when some selected security still has a
valid price. -/
lemma allocLoop_zero (inv : ℚ) :
    ∀ l : List Security,
      allocLoop 0 inv l =
        if l.any validPrice then Except.error "cannot convert float NaN to integer"
        else Except.ok ([], 0, 0) := by
  intro l
  induction l with
  | nil => rfl
  | cons s rest ih =>
    cases hp : s.price with
    | none =>
      have hv : validPrice s = false := by simp [validPrice, hp]
      simp [allocLoop, hp, List.any_cons, hv, ih]
    | some p =>
      by_cases hple : p ≤ 0
      · have hv : validPrice s = false := by simp [validPrice, hp, hple]
        simp [allocLoop, hp, hple, List.any_cons, hv, ih]
      · have hv : validPrice s = true := by simp [validPrice, hp, hple]
        simp [allocLoop, hp, hple, List.any_cons, hv]

/-- Selected securities come from the input universe. -/
lemma selectedCompanies_subset (secs : List Security) (c : ℚ) :
    ∀ s ∈ selectedCompanies secs c, s ∈ secs := by
  intro s hs
  unfold selectedCompanies at hs
  cases hfi : findCrossIdx (c / 100) (cumsum (secs.map Security.weight)) with
  | some i =>
    rw [hfi] at hs
    exact List.mem_of_mem_take hs
  | none =>
    rw [hfi] at hs
    exact hs

/-- With nonnegative input weights the selected weight sum is nonnegative. -/
lemma selected_weight_sum_nonneg (secs : List Security) (c : ℚ)
    (hws : ∀ t ∈ secs, 0 ≤ t.weight) :
    0 ≤ ((selectedCompanies secs c).map Security.weight).sum := by
  apply List.sum_nonneg
  intro x hx
  obtain ⟨t, ht, rfl⟩ := List.mem_map.mp hx
  exact hws t (selectedCompanies_subset secs c t ht)

/-- Unfolding equation for `linesFor` on a cons cell, phrased through the
price filter so that the tail stays folded. -/
lemma linesFor_cons_none (w inv : ℚ) (s : Security) (rest : List Security)
    (hp : s.price = none) :
    linesFor w inv (s :: rest) = linesFor w inv rest := by
  unfold linesFor
  rw [List.filterMap_cons, hp]

/-- Unfolding equation for `linesFor` on a cons cell whose price fails the
positivity filter. -/
lemma linesFor_cons_bad (w inv : ℚ) (s : Security) (rest : List Security) (p : ℚ)
    (hp : s.price = some p) (hple : p ≤ 0) :
    linesFor w inv (s :: rest) = linesFor w inv rest := by
  unfold linesFor
  rw [List.filterMap_cons, hp]
  simp [hple]

/-- Unfolding equation for `linesFor` on a cons cell with valid price. -/
lemma linesFor_cons_good (w inv : ℚ) (s : Security) (rest : List Security) (p : ℚ)
    (hp : s.price = some p) (hple : ¬p ≤ 0) :
    linesFor w inv (s :: rest) = mkLine w inv s p :: linesFor w inv rest := by
  unfold linesFor
  rw [List.filterMap_cons, hp]
  simp [hple]

/-- One emitted plan line per selected security passing the price filter. -/
lemma linesFor_length (w inv : ℚ) :
    ∀ l : List Security, (linesFor w inv l).length = (l.filter validPrice).length := by
  intro l
  induction l with
  | nil => rfl
  | cons s rest ih =>
    cases hp : s.price with
    | none =>
      have hv : validPrice s = false := by simp [validPrice, hp]
      rw [linesFor_cons_none w inv s rest hp]
      simp [List.filter_cons, hv, ih]
    | some p =>
      by_cases hple : p ≤ 0
      · have hv : validPrice s = false := by simp [validPrice, hp, hple]
        rw [linesFor_cons_bad w inv s rest p hp hple]
        simp [List.filter_cons, hv, ih]
      · have hv : validPrice s = true := by simp [validPrice, hp, hple]
        rw [linesFor_cons_good w inv s rest p hp hple]
        simp [List.filter_cons, hv, ih]

/-- Full characterization of a successful allocation run with nonzero
selected weight and nonzero investment amount. -/
lemma calculate_investment_ok (secs : List Security) (c inv : ℚ)
    (hw : ((selectedCompanies secs c).map Security.weight).sum ≠ 0) (hinv : inv ≠ 0) :
    calculate_investment_api secs c inv =
      Except.ok
        { investment_plan :=
            linesFor ((selectedCompanies secs c).map Security.weight).sum inv
              (selectedCompanies secs c)
          total_invested :=
            planTotal (linesFor ((selectedCompanies secs c).map Security.weight).sum inv
              (selectedCompanies secs c))
          remaining_cash :=
            inv - planTotal (linesFor ((selectedCompanies secs c).map Security.weight).sum inv
              (selectedCompanies secs c))
          companies_selected := (selectedCompanies secs c).length
          companies_invested :=
            planCount (linesFor ((selectedCompanies secs c).map Security.weight).sum inv
              (selectedCompanies secs c))
          selected_companies := (selectedCompanies secs c).map Security.symbol
          actual_coverage := ((selectedCompanies secs c).map Security.weight).sum
          investment_efficiency :=
            planTotal (linesFor ((selectedCompanies secs c).map Security.weight).sum inv
              (selectedCompanies secs c)) / inv * 100 } := by
  unfold calculate_investment_api
  rw [allocLoop_eq_ok _ _ hw]
  simp [hinv]

/-- C7.  A selected security with missing or nonpositive price is skipped
without raising: the loop outcome is unchanged by deleting such securities,
every such security is excluded from the emitted plan, it still counts in
`companies_selected`, and `companies_invested` only counts emitted lines
with positive shares. -/
theorem alloc_skips_invalid_prices (secs : List Security) (c inv : ℚ) :
    allocLoop ((selectedCompanies secs c).map Security.weight).sum inv
        (selectedCompanies secs c) =
      allocLoop ((selectedCompanies secs c).map Security.weight).sum inv
        ((selectedCompanies secs c).filter validPrice) ∧
    ∀ r, calculate_investment_api secs c inv = Except.ok r →
      r.companies_selected = (selectedCompanies secs c).length ∧
      r.investment_plan.length = ((selectedCompanies secs c).filter validPrice).length ∧
      r.companies_invested = (r.investment_plan.filter fun x => 0 < x.shares).length := by
  constructor
  · exact allocLoop_filter_valid _ _ _
  · intro r hr
    by_cases hw : ((selectedCompanies secs c).map Security.weight).sum = 0
    · unfold calculate_investment_api at hr
      rw [hw, allocLoop_zero] at hr
      cases ha : (selectedCompanies secs c).any validPrice with
      | true => rw [ha] at hr; simp at hr
      | false =>
        rw [ha] at hr
        by_cases hinv : inv = 0
        · simp [hinv] at hr
        · simp only [if_neg, hinv, if_false, Bool.false_eq_true, Except.ok.injEq] at hr
          have hfil : (selectedCompanies secs c).filter validPrice = [] := by
            rw [List.filter_eq_nil_iff]
            intro a hma
            simpa using List.any_eq_false.mp ha a hma
          rw [← hr]
          refine ⟨rfl, by simp [hfil], by simp [planCount_eq_filter_length]⟩
    · by_cases hinv : inv = 0
      · unfold calculate_investment_api at hr
        rw [allocLoop_eq_ok _ _ hw] at hr
        simp [hinv] at hr
      · rw [calculate_investment_ok secs c inv hw hinv] at hr
        injection hr with hr
        rw [← hr]
        refine ⟨rfl, ?_, ?_⟩
        · exact linesFor_length _ _ _
        · exact planCount_eq_filter_length _

/-- A universe where the second security has no quoted price (the
specification's third example scenario). -/
def mixSecs : List Security :=
  [⟨"A", 3/5, some 10⟩, ⟨"B", 2/5, none⟩]

/-- The allocation result of running `mixSecs` at 100% coverage with
1000 PKR. -/
def mixResult : AllocationResult :=
  ⟨[⟨"A", 60, 60, 10, 60, 600⟩], 600, 400, 2, 1, ["A", "B"], 1, 60⟩

/-- Witness for C7: the priceless security is selected and counted but not
planned or invested. -/
theorem alloc_skips_invalid_witness :
    calculate_investment_api mixSecs 100 1000 = Except.ok mixResult ∧
    (mixResult.companies_selected = (selectedCompanies mixSecs 100).length ∧
      mixResult.investment_plan.length = ((selectedCompanies mixSecs 100).filter validPrice).length ∧
      mixResult.companies_invested =
        (mixResult.investment_plan.filter fun x => 0 < x.shares).length) := by
  have heval : calculate_investment_api mixSecs 100 1000 = Except.ok mixResult := by
    norm_num [calculate_investment_api, selectedCompanies, cumsum, cumsumAux, findCrossIdx,
      allocLoop, mkLine, round2, rhe, mixSecs, mixResult]
  exact ⟨heval, (alloc_skips_invalid_prices mixSecs 100 1000).2 mixResult heval⟩

/-- C10.  A selected security with a valid price whose allocation is
smaller than its price still receives a plan line, with zero shares and
zero invested amount; it is only excluded from the positive-share count
`companies_invested`, not from the plan. -/
theorem unaffordable_security_keeps_line (secs : List Security) (c inv : ℚ)
    (s : Security) (p : ℚ)
    (hws : ∀ t ∈ secs, 0 ≤ t.weight)
    (hinv : 0 < inv)
    (hw : ((selectedCompanies secs c).map Security.weight).sum ≠ 0)
    (hmem : s ∈ selectedCompanies secs c)
    (hp : s.price = some p) (hp0 : 0 < p)
    (hsmall : s.weight / ((selectedCompanies secs c).map Security.weight).sum * inv < p) :
    ∀ r, calculate_investment_api secs c inv = Except.ok r →
      mkLine ((selectedCompanies secs c).map Security.weight).sum inv s p ∈ r.investment_plan ∧
      (mkLine ((selectedCompanies secs c).map Security.weight).sum inv s p).shares = 0 ∧
      (mkLine ((selectedCompanies secs c).map Security.weight).sum inv s p).invested_amount = 0 ∧
      r.companies_invested = (r.investment_plan.filter fun x => 0 < x.shares).length := by
  intro r hr
  rw [calculate_investment_ok secs c inv hw (ne_of_gt hinv)] at hr
  injection hr with hr
  have hW0 : 0 < ((selectedCompanies secs c).map Security.weight).sum :=
    lt_of_le_of_ne (selected_weight_sum_nonneg secs c hws) (Ne.symm hw)
  have halloc :
      0 ≤ s.weight / ((selectedCompanies secs c).map Security.weight).sum * inv :=
    mul_nonneg (div_nonneg (hws s (selectedCompanies_subset secs c s hmem)) hW0.le) hinv.le
  have hsh :
      ⌊s.weight / ((selectedCompanies secs c).map Security.weight).sum * inv / p⌋ = 0 := by
    rw [Int.floor_eq_zero_iff]
    constructor
    · exact div_nonneg halloc hp0.le
    · exact (div_lt_one hp0).mpr hsmall
  refine ⟨?_, ?_, ?_, ?_⟩
  · rw [← hr]
    apply List.mem_filterMap.mpr
    refine ⟨s, hmem, ?_⟩
    rw [hp]
    simp [not_le.mpr hp0]
  · exact hsh
  · simp [mkLine, hsh, round2_zero]
  · rw [← hr]
    exact planCount_eq_filter_length _

/-- A universe whose second security's allocation cannot buy one share. -/
def smallSecs : List Security :=
  [⟨"A", 3/5, some 10⟩, ⟨"B", 2/5, some 2000⟩]

/-- The allocation result of running `smallSecs` at 100% coverage with
1000 PKR: B gets a zero-share line. -/
def smallResult : AllocationResult :=
  ⟨[⟨"A", 60, 60, 10, 60, 600⟩, ⟨"B", 40, 40, 2000, 0, 0⟩],
    600, 400, 2, 1, ["A", "B"], 1, 60⟩

/-- Witness for C10 at a concrete run: security B is selected, priced at
2000 with an allocation of 400, and keeps a zero-share line. -/
theorem unaffordable_security_witness :
    calculate_investment_api smallSecs 100 1000 = Except.ok smallResult ∧
    (mkLine ((selectedCompanies smallSecs 100).map Security.weight).sum 1000
        ⟨"B", 2/5, some 2000⟩ 2000 ∈ smallResult.investment_plan ∧
      (mkLine ((selectedCompanies smallSecs 100).map Security.weight).sum 1000
        ⟨"B", 2/5, some 2000⟩ 2000).shares = 0 ∧
      (mkLine ((selectedCompanies smallSecs 100).map Security.weight).sum 1000
        ⟨"B", 2/5, some 2000⟩ 2000).invested_amount = 0 ∧
      smallResult.companies_invested =
        (smallResult.investment_plan.filter fun x => 0 < x.shares).length) := by
  have hsel : selectedCompanies smallSecs 100 = smallSecs := by
    norm_num [selectedCompanies, cumsum, cumsumAux, findCrossIdx, smallSecs]
  have heval : calculate_investment_api smallSecs 100 1000 = Except.ok smallResult := by
    norm_num [calculate_investment_api, selectedCompanies, cumsum, cumsumAux, findCrossIdx,
      allocLoop, mkLine, round2, rhe, smallSecs, smallResult]
  refine ⟨heval, ?_⟩
  apply unaffordable_security_keeps_line smallSecs 100 1000 ⟨"B", 2/5, some 2000⟩ 2000
    ?_ (by norm_num) ?_ ?_ rfl (by norm_num) ?_ smallResult heval
  · intro t ht
    simp only [smallSecs, List.mem_cons, List.mem_singleton] at ht
    rcases ht with h | h | h
    · rw [h]; norm_num
    · rw [h]; norm_num
    · simp at h
  · rw [hsel]; norm_num [smallSecs]
  · rw [hsel]; simp [smallSecs]
  · rw [hsel]; norm_num [smallSecs]

/-- C4 (amended).  Every emitted plan line is the line of a selected,
validly priced security; its share count is a nonnegative integer and its
exact cost `shares * price` never exceeds the security's allocation
`adjusted_weight * investment_amount`.  The reported `invested_amount`,
being `shares * price` rounded to two decimals, can exceed the allocation
by at most `1/200`. -/
theorem alloc_line_share_bounds (secs : List Security) (c inv : ℚ)
    (hws : ∀ t ∈ secs, 0 ≤ t.weight) (hinv : 0 < inv) :
    ∀ r, calculate_investment_api secs c inv = Except.ok r →
      ∀ line ∈ r.investment_plan, ∃ s ∈ selectedCompanies secs c,
        0 < line.price ∧
        line = mkLine ((selectedCompanies secs c).map Security.weight).sum inv s line.price ∧
        0 ≤ line.shares ∧
        (line.shares : ℚ) * line.price ≤
          s.weight / ((selectedCompanies secs c).map Security.weight).sum * inv ∧
        line.invested_amount ≤
          s.weight / ((selectedCompanies secs c).map Security.weight).sum * inv + 1/200 := by
  intro r hr line hline
  by_cases hw : ((selectedCompanies secs c).map Security.weight).sum = 0
  · exfalso
    unfold calculate_investment_api at hr
    rw [hw, allocLoop_zero] at hr
    cases ha : (selectedCompanies secs c).any validPrice with
    | true => rw [ha] at hr; simp at hr
    | false =>
      rw [ha] at hr
      simp only [Bool.false_eq_true, if_false, if_neg (ne_of_gt hinv),
        Except.ok.injEq] at hr
      rw [← hr] at hline
      simp at hline
  · rw [calculate_investment_ok secs c inv hw (ne_of_gt hinv)] at hr
    injection hr with hr
    rw [← hr] at hline
    obtain ⟨s, hs, hfs⟩ := List.mem_filterMap.mp hline
    cases hp : s.price with
    | none => rw [hp] at hfs; simp at hfs
    | some p =>
      rw [hp] at hfs
      by_cases hple : p ≤ 0
      · simp [hple] at hfs
      · simp only [if_neg hple, Option.some.injEq] at hfs
        subst hfs
        have hp0 : 0 < p := lt_of_not_ge hple
        have hW0 : 0 < ((selectedCompanies secs c).map Security.weight).sum :=
          lt_of_le_of_ne (selected_weight_sum_nonneg secs c hws) (Ne.symm hw)
        have halloc :
            0 ≤ s.weight / ((selectedCompanies secs c).map Security.weight).sum * inv :=
          mul_nonneg (div_nonneg (hws s (selectedCompanies_subset secs c s hs)) hW0.le)
            hinv.le
        have hfl :
            (⌊s.weight / ((selectedCompanies secs c).map Security.weight).sum * inv / p⌋ : ℚ)
              * p ≤ s.weight / ((selectedCompanies secs c).map Security.weight).sum * inv := by
          have h1 := mul_le_mul_of_nonneg_right
            (Int.floor_le (s.weight / ((selectedCompanies secs c).map Security.weight).sum
              * inv / p)) hp0.le
          rwa [div_mul_cancel₀ _ (ne_of_gt hp0)] at h1
        refine ⟨s, hs, by simpa [mkLine] using hp0, rfl, ?_, ?_, ?_⟩
        · simp only [mkLine]
          exact Int.floor_nonneg.mpr (div_nonneg halloc hp0.le)
        · simpa [mkLine] using hfl
        · simp only [mkLine]
          have h2 := (round2_bounds
            ((⌊s.weight / ((selectedCompanies secs c).map Security.weight).sum * inv / p⌋ : ℚ)
              * p)).2
          linarith

/-- A one-security universe priced at 3.456 PKR, invested with exactly
3.456 PKR. -/
def overSecs : List Security :=
  [⟨"A", 3/5, some (432/125)⟩]

/-- Counterexample to C4 as stated: in the run of `overSecs` at 100%
coverage with 3.456 PKR, the emitted line holds
`invested_amount = round(3.456, 2) = 3.46`, which exceeds
`adjusted_weight * investment_amount = 1 * 3.456`. -/
theorem invested_amount_overspend_counterexample :
    calculate_investment_api overSecs 100 (432/125) =
      Except.ok ⟨[⟨"A", 60, 100, 432/125, 1, 173/50⟩], 432/125, 0, 1, 1, ["A"], 3/5, 100⟩ ∧
    ¬((173:ℚ)/50 ≤ 3/5 / (3/5) * (432/125)) := by
  constructor
  · norm_num [calculate_investment_api, selectedCompanies, cumsum, cumsumAux, findCrossIdx,
      allocLoop, mkLine, round2, rhe, overSecs]
  · norm_num

/-- The allocation result of running `twoSecs` at 50% coverage with
1000 PKR (the specification's first example scenario). -/
def res50 : AllocationResult :=
  ⟨[⟨"A", 60, 100, 10, 100, 1000⟩], 1000, 0, 1, 1, ["A"], 3/5, 100⟩

/-- Witness for C4 (amended) at the first example scenario. -/
theorem alloc_line_share_bounds_witness :
    calculate_investment_api twoSecs 50 1000 = Except.ok res50 ∧
    (∀ line ∈ res50.investment_plan, ∃ s ∈ selectedCompanies twoSecs 50,
      0 < line.price ∧
      line = mkLine ((selectedCompanies twoSecs 50).map Security.weight).sum 1000 s line.price ∧
      0 ≤ line.shares ∧
      (line.shares : ℚ) * line.price ≤
        s.weight / ((selectedCompanies twoSecs 50).map Security.weight).sum * 1000 ∧
      line.invested_amount ≤
        s.weight / ((selectedCompanies twoSecs 50).map Security.weight).sum * 1000 + 1/200) := by
  have heval : calculate_investment_api twoSecs 50 1000 = Except.ok res50 := by
    norm_num [calculate_investment_api, selectedCompanies, cumsum, cumsumAux, findCrossIdx,
      allocLoop, mkLine, round2, rhe, twoSecs, res50]
  refine ⟨heval, alloc_line_share_bounds twoSecs 50 1000 ?_ (by norm_num) res50 heval⟩
  intro t ht
  simp only [twoSecs, List.mem_cons, List.mem_singleton] at ht
  rcases ht with h | h | h
  · rw [h]; norm_num
  · rw [h]; norm_num
  · simp at h

/-- C1 (amended).  When the selected weight sum is 0 the adjusted weights
are undefined (NaN), and the run aborts — with a NaN-conversion
`ValueError`, there is no typed `ConfigurationError` in the code — exactly
when some selected security still has a valid price; when no selected
security has a valid price (for instance an empty universe), the run
succeeds and returns an `AllocationResult` with no plan lines, zero
invested, and all cash remaining. -/
theorem zero_weight_selection_behavior (secs : List Security) (c inv : ℚ)
    (hinv : inv ≠ 0)
    (hw : ((selectedCompanies secs c).map Security.weight).sum = 0) :
    ((selectedCompanies secs c).any validPrice = true →
      calculate_investment_api secs c inv =
        Except.error "cannot convert float NaN to integer") ∧
    ((selectedCompanies secs c).any validPrice = false →
      calculate_investment_api secs c inv =
        Except.ok ⟨[], 0, inv, (selectedCompanies secs c).length, 0,
          (selectedCompanies secs c).map Security.symbol, 0, 0⟩) := by
  constructor
  · intro ha
    unfold calculate_investment_api
    rw [hw, allocLoop_zero, ha]
    rfl
  · intro ha
    unfold calculate_investment_api
    rw [hw, allocLoop_zero, ha]
    simp only [Bool.false_eq_true, if_false, if_neg hinv]
    norm_num

/-- A universe with a single zero-weight, priceless security. -/
def zeroWeightSecs : List Security :=
  [⟨"A", 0, none⟩]

/-- Counterexample to C1 as stated: a run whose selected weight sum is 0
completes successfully and produces an `AllocationResult` (no failure of
any kind), because no selected security passes the price filter. -/
theorem zero_weight_run_succeeds_counterexample :
    ((selectedCompanies zeroWeightSecs 50).map Security.weight).sum = 0 ∧
    calculate_investment_api zeroWeightSecs 50 1000 =
      Except.ok ⟨[], 0, 1000, 1, 0, ["A"], 0, 0⟩ := by
  constructor
  · norm_num [selectedCompanies, cumsum, cumsumAux, findCrossIdx, zeroWeightSecs]
  · norm_num [calculate_investment_api, selectedCompanies, cumsum, cumsumAux, findCrossIdx,
      allocLoop, zeroWeightSecs]

/-- Witness for C1 (amended) at the zero-weight universe. -/
theorem zero_weight_selection_witness :
    (1000:ℚ) ≠ 0 ∧
    ((selectedCompanies zeroWeightSecs 50).map Security.weight).sum = 0 ∧
    (((selectedCompanies zeroWeightSecs 50).any validPrice = true →
      calculate_investment_api zeroWeightSecs 50 1000 =
        Except.error "cannot convert float NaN to integer") ∧
    ((selectedCompanies zeroWeightSecs 50).any validPrice = false →
      calculate_investment_api zeroWeightSecs 50 1000 =
        Except.ok ⟨[], 0, 1000, (selectedCompanies zeroWeightSecs 50).length, 0,
          (selectedCompanies zeroWeightSecs 50).map Security.symbol, 0, 0⟩)) := by
  have hsum : ((selectedCompanies zeroWeightSecs 50).map Security.weight).sum = 0 := by
    norm_num [selectedCompanies, cumsum, cumsumAux, findCrossIdx, zeroWeightSecs]
  exact ⟨by norm_num, hsum,
    zero_weight_selection_behavior zeroWeightSecs 50 1000 (by norm_num) hsum⟩

/-- A simulated year's closing balance is its opening balance plus the
year's deposits plus the year's earnings, exactly. -/
lemma sipYear_balance (r m b : ℚ) :
    (sipYear r m b).1 = b + (sipYear r m b).2.1 + (sipYear r m b).2.2 := by
  simp only [sipYear, sipMonth]
  ring

/-- The final state of the SIP loop is the `n`-fold iterate of the yearly
state update; the emitted row index does not influence the state. -/
lemma sipLoop_state (r incr : ℚ) :
    ∀ (n idx : ℕ) (s : SipState), (sipLoop r incr n idx s).2 = (yearStep r incr)^[n] s := by
  intro n
  induction n with
  | zero => intro idx s; rfl
  | succ n ih =>
    intro idx s
    rw [Function.iterate_succ_apply]
    exact ih (idx + 1) (yearStep r incr s)

/-- The rows of the SIP loop: the `k`-th row is the row of year `idx + k`,
computed from the `k`-fold iterated state. -/
lemma sipLoop_rows (r incr : ℚ) :
    ∀ (n idx : ℕ) (s : SipState),
      (sipLoop r incr n idx s).1 =
        (List.range n).map fun k => rowFor r (idx + k) ((yearStep r incr)^[k] s) := by
  intro n
  induction n with
  | zero => intro idx s; rfl
  | succ n ih =>
    intro idx s
    rw [List.range_succ_eq_map]
    simp only [sipLoop, List.map_cons, List.map_map]
    rw [ih (idx + 1) (yearStep r incr s)]
    congr 1
    apply List.map_congr_left
    intro k hk
    simp only [Function.comp_apply, Function.iterate_succ_apply]
    congr 1
    omega

/-- Every row the loop emits carries a year number at least `idx`. -/
lemma sipLoop_row_year (r incr : ℚ) (n idx : ℕ) (s : SipState) :
    ∀ row ∈ (sipLoop r incr n idx s).1, idx ≤ row.year := by
  intro row hrow
  rw [sipLoop_rows] at hrow
  obtain ⟨k, hk, rfl⟩ := List.mem_map.mp hrow
  simp only [rowFor]
  omega

/-- One year of simulation preserves the accounting identity
`balance = total_deposits + total_earnings`. -/
lemma yearStep_invariant (r incr : ℚ) (s : SipState)
    (h : s.balance = s.total_deposits + s.total_earnings) :
    (yearStep r incr s).balance =
      (yearStep r incr s).total_deposits + (yearStep r incr s).total_earnings := by
  have hb := sipYear_balance r s.monthly s.balance
  simp only [yearStep]
  linarith

/-- The accounting identity holds after any number of simulated years. -/
lemma iterate_yearStep_invariant (r incr : ℚ) (s : SipState)
    (h : s.balance = s.total_deposits + s.total_earnings) :
    ∀ n : ℕ, ((yearStep r incr)^[n] s).balance =
      ((yearStep r incr)^[n] s).total_deposits + ((yearStep r incr)^[n] s).total_earnings := by
  intro n
  induction n with
  | zero => exact h
  | succ n ih =>
    rw [Function.iterate_succ_apply']
    exact yearStep_invariant r incr _ ih

/-- C9.  In exact arithmetic the running balance after each completed year
equals the deposits plus earnings accumulated so far; consequently the
summary satisfies `final_corpus = total_deposits + total_earnings` and
`profit = total_earnings` exactly. -/
theorem sip_exact_accounting (initial rate m incr : ℚ) (years y : ℕ) :
    (sipStateAfter initial rate m incr y).balance =
      (sipStateAfter initial rate m incr y).total_deposits +
        (sipStateAfter initial rate m incr y).total_earnings ∧
    (compute_sip_api initial years rate m incr).2.final_corpus =
      (compute_sip_api initial years rate m incr).2.total_deposits +
        (compute_sip_api initial years rate m incr).2.total_earnings ∧
    (compute_sip_api initial years rate m incr).2.profit =
      (compute_sip_api initial years rate m incr).2.total_earnings := by
  have hstart : (⟨initial, initial, 0, m⟩ : SipState).balance =
      (⟨initial, initial, 0, m⟩ : SipState).total_deposits +
        (⟨initial, initial, 0, m⟩ : SipState).total_earnings := by
    simp
  have hiter := iterate_yearStep_invariant (rate / 100 / 12) incr
    ⟨initial, initial, 0, m⟩ hstart
  have hafter : ∀ n : ℕ, (sipStateAfter initial rate m incr n).balance =
      (sipStateAfter initial rate m incr n).total_deposits +
        (sipStateAfter initial rate m incr n).total_earnings := by
    intro n
    unfold sipStateAfter
    rw [sipLoop_state]
    exact hiter n
  refine ⟨hafter y, ?_, ?_⟩
  · simp only [compute_sip_api, sipSummaryGuarded]
    have h := hafter years
    unfold sipStateAfter at h
    exact h
  · simp only [compute_sip_api, sipSummaryGuarded]
    have h := hafter years
    unfold sipStateAfter at h
    linarith

/-- C3 (amended).  The emitted SIP rows are, field by field, the
two-decimal roundings of the exact simulation quantities, and the exact
quantities satisfy the row invariant precisely: the exact Year 0 balance is
`initial_balance`, and each year's exact closing balance is the previous
exact balance plus that year's exact deposits plus that year's exact
earnings.  (On the rounded emitted fields the equality can be off by the
accumulated rounding error, as the counterexample shows.) -/
theorem sip_row_recurrence_exact (initial rate m incr : ℚ) (years y : ℕ) :
    (compute_sip_api initial years rate m incr).1 =
      (if 0 < initial then [year0Row initial] else []) ++
        (List.range years).map (fun k =>
          rowFor (rate / 100 / 12) (1 + k)
            ((yearStep (rate / 100 / 12) incr)^[k] ⟨initial, initial, 0, m⟩)) ∧
    (sipStateAfter initial rate m incr 0).balance = initial ∧
    (sipStateAfter initial rate m incr (y + 1)).balance =
      (sipStateAfter initial rate m incr y).balance +
        (sipYear (rate / 100 / 12) (sipStateAfter initial rate m incr y).monthly
          (sipStateAfter initial rate m incr y).balance).2.1 +
        (sipYear (rate / 100 / 12) (sipStateAfter initial rate m incr y).monthly
          (sipStateAfter initial rate m incr y).balance).2.2 := by
  refine ⟨?_, ?_, ?_⟩
  · simp only [compute_sip_api]
    rw [sipLoop_rows]
  · unfold sipStateAfter
    rw [sipLoop_state]
    rfl
  · unfold sipStateAfter
    rw [sipLoop_state, sipLoop_state, Function.iterate_succ_apply']
    have hb := sipYear_balance (rate / 100 / 12)
      (((yearStep (rate / 100 / 12) incr)^[y] ⟨initial, initial, 0, m⟩).monthly)
      (((yearStep (rate / 100 / 12) incr)^[y] ⟨initial, initial, 0, m⟩).balance)
    simp only [yearStep]
    linarith

/-- Counterexample to C3 as stated: at
`initial_balance = 3.964, years = 1, annual_interest_rate = 12,
monthly_investment = 0`, the emitted rows are Year 0 with
`net_balance = 3.96` and Year 1 with `year_deposits = 0`,
`earnings_this_year = 0.50`, `net_balance = 4.47`, and
`4.47 ≠ 3.96 + 0 + 0.50`: the invariant fails on the rounded emitted
fields (and `net_balance(0) = 3.96 ≠ 3.964 = initial_balance`). -/
theorem sip_rounded_invariant_counterexample :
    (compute_sip_api (3964/1000) 1 12 0 0).1 =
      [⟨0, 99/25, 0, 99/25, 0, 99/25⟩, ⟨1, 0, 1/2, 99/25, 1/2, 447/100⟩] ∧
    ¬((447:ℚ)/100 = 99/25 + 0 + 1/2) ∧ ¬((99:ℚ)/25 = 3964/1000) := by
  refine ⟨?_, by norm_num, by norm_num⟩
  norm_num [compute_sip_api, sipLoop, rowFor, yearStep, sipYear, sipMonth, year0Row,
    round2, rhe]

/-- C5.  At zero total deposits (`initial_balance = 0`,
`monthly_investment = 0`), the guarded `compute_sip_api` of `main.py`
returns `growth_percent = 0` as the claim states, but the unguarded
`sip_calculator` of `sip.py:66` divides by the zero total and raises
`ZeroDivisionError`: the two implementations diverge and `sip.py`
contradicts the documented guard. -/
theorem sip_zero_deposits_divergence :
    sip_calculator 0 1 12 0 0 = Except.error "float division by zero" ∧
    (compute_sip_api 0 1 12 0 0).2.growth_percent = 0 := by
  constructor
  · norm_num [sip_calculator, sipLoop, yearStep, sipYear, sipMonth]
  · norm_num [compute_sip_api, sipSummaryGuarded, sipLoop, yearStep, sipYear, sipMonth]

/-- C6 (amended).  A Year 0 row is emitted exactly when
`initial_balance > 0`; when emitted, it is the head of the row list and all
its money fields hold `round2 initial_balance` (with zero earnings), which
equals `initial_balance` itself whenever the initial balance has at most
two decimal places. -/
theorem year0_row_rounded (initial : ℚ) (years : ℕ) (rate m incr : ℚ) :
    ((∃ row ∈ (compute_sip_api initial years rate m incr).1, row.year = 0) ↔ 0 < initial) ∧
    (0 < initial → (compute_sip_api initial years rate m incr).1.head? =
      some ⟨0, round2 initial, 0, round2 initial, 0, round2 initial⟩) ∧
    (∀ k : ℤ, initial = (k : ℚ) / 100 → round2 initial = initial) := by
  refine ⟨⟨?_, ?_⟩, ?_, ?_⟩
  · rintro ⟨row, hrow, hy⟩
    by_contra hni
    rw [compute_sip_api] at hrow
    simp only [if_neg hni, List.nil_append] at hrow
    have := sipLoop_row_year (rate / 100 / 12) incr years 1
      ⟨initial, initial, 0, m⟩ row hrow
    omega
  · intro hi
    refine ⟨year0Row initial, ?_, rfl⟩
    rw [compute_sip_api]
    simp [if_pos hi]
  · intro hi
    rw [compute_sip_api]
    simp only [if_pos hi, List.cons_append, List.head?_cons, year0Row, round2_zero]
  · intro k hk
    rw [hk]
    exact round2_cent k

/-- Witness for C6 (amended) at the specification's fifth example
scenario (`initial_balance = 10000`). -/
theorem year0_row_witness :
    (0:ℚ) < 10000 ∧
    (compute_sip_api 10000 1 12 0 0).1.head? =
      some ⟨0, round2 10000, 0, round2 10000, 0, round2 10000⟩ :=
  ⟨by norm_num, (year0_row_rounded 10000 1 12 0 0).2.1 (by norm_num)⟩

/-- Counterexample to C6 as stated: at `initial_balance = 0.004` the Year 0
row is emitted, but its `net_balance` is `round(0.004, 2) = 0`, not the
initial balance. -/
theorem year0_row_counterexample :
    (compute_sip_api (1/250) 1 12 0 0).1.head? = some ⟨0, 0, 0, 0, 0, 0⟩ ∧
    ¬((0:ℚ) = 1/250) := by
  constructor
  · rw [compute_sip_api]
    norm_num [year0Row, round2, rhe]
  · norm_num
